import Mathlib

/-!
Verification of the diff-to-structured-summary pipeline (`src/diff-processor.ts`
together with the pattern tables and type declarations of the repository).

The TypeScript source is shallowly embedded: strings are modelled as their
character sequences (`String.data`), each regular expression of the pattern
tables is translated to an executable `String → Bool` predicate, JS numbers
are modelled as `Nat` (all quantities in the source are non-negative
integers) except for the one floating-point average in the budget allocator,
which is modelled as an exact rational `ℚ`.
-/

set_option maxHeartbeats 1600000
set_option maxRecDepth 8000

namespace DiffNote

/-! ### Character-level string primitives

These model the JavaScript string operations used by the source
(`startsWith`, `endsWith`, `includes`, `trim`, `toLowerCase`,
`split('\n')`, `slice`).  UTF-16 surrogate-pair index arithmetic is not
modelled; the JS whitespace class is modelled by its ASCII members. -/

def wsChar (c : Char) : Bool :=
  c == ' ' || c == '\t' || c == '\n' || c == '\r' || c == '\x0b' || c == '\x0c'

def hasPfx : List Char → List Char → Bool
  | [], _ => true
  | _ :: _, [] => false
  | p :: ps, c :: cs => p == c && hasPfx ps cs

def hasSub (p : List Char) : List Char → Bool
  | [] => hasPfx p []
  | c :: cs => hasPfx p (c :: cs) || hasSub p cs

def hasSfx (p s : List Char) : Bool := hasPfx p.reverse s.reverse

def startsW (p s : String) : Bool := hasPfx p.data s.data

def endsW (p s : String) : Bool := hasSfx p.data s.data

def containsS (p s : String) : Bool := hasSub p.data s.data

def lowerChar (c : Char) : Char := c.toLower

def lowerStr (s : String) : String := ⟨s.data.map lowerChar⟩

def startsWCI (p s : String) : Bool :=
  hasPfx (p.data.map lowerChar) (s.data.map lowerChar)

def endsWCI (p s : String) : Bool :=
  hasSfx (p.data.map lowerChar) (s.data.map lowerChar)

def containsCI (p s : String) : Bool :=
  hasSub (p.data.map lowerChar) (s.data.map lowerChar)

def dropWsL (l : List Char) : List Char := l.dropWhile wsChar

def trimL (l : List Char) : List Char :=
  ((l.dropWhile wsChar).reverse.dropWhile wsChar).reverse

/-- `patch.split('\n')` on the character list (JS `split` never returns `[]`;
on the empty string it returns `[""]`). -/
def splitNl : List Char → List (List Char)
  | [] => [[]]
  | '\n' :: rest => [] :: splitNl rest
  | c :: rest =>
    match splitNl rest with
    | [] => [[c]]
    | h :: t => (c :: h) :: t

/-- `Array.prototype.join(sep)`. -/
def joinSep (sep : String) : List String → String
  | [] => ""
  | [a] => a
  | a :: b :: rest => a ++ sep ++ joinSep sep (b :: rest)

/-! ### Data model (`src/types.ts`, `src/patterns.ts`) -/

inductive FileStatus
  | added | removed | modified | renamed
deriving DecidableEq

inductive FileCategory
  | backend | frontend | infra | config | test | docs | other
deriving DecidableEq

inductive ChangeType
  | feature | refactor | fix | style | dependency | config | docs
deriving DecidableEq

inductive ImportanceLevel
  | high | medium | low
deriving DecidableEq

inductive ChangeDir
  | added | removed
deriving DecidableEq

structure FileDiff where
  filename : String
  status : FileStatus
  additions : Nat
  deletions : Nat
  patch : Option String
deriving DecidableEq

structure MeaningfulChange where
  type : ChangeDir
  content : String
  context : Option String
  lineNumber : Option Nat
deriving DecidableEq

structure EnhancedFileDiff extends FileDiff where
  category : FileCategory
  changeType : ChangeType
  importance : ImportanceLevel
  isGenerated : Bool
  isFormattingOnly : Bool
  meaningfulChanges : List MeaningfulChange
  truncated : Bool
  originalLineCount : Nat
deriving DecidableEq

structure CategorizedFiles where
  backend : List EnhancedFileDiff
  frontend : List EnhancedFileDiff
  infra : List EnhancedFileDiff
  config : List EnhancedFileDiff
  test : List EnhancedFileDiff
  docs : List EnhancedFileDiff
  other : List EnhancedFileDiff
deriving DecidableEq

structure CategorySummary where
  category : FileCategory
  files : List String
  highlights : List String
  hasBreakingChanges : Bool
  changeTypes : List ChangeType
deriving DecidableEq

structure ProcessingStats where
  totalFiles : Nat
  processedFiles : Nat
  skippedFiles : Nat
  truncatedFiles : Nat
  estimatedTokens : Nat
  categoryCounts : FileCategory → Nat

structure OutputMetadata where
  prTitle : String
  totalAdditions : Nat
  totalDeletions : Nat
  fileCount : Nat
  stats : ProcessingStats

structure OutputSummary where
  prRelevant : List CategorySummary
  readmeRelevant : List CategorySummary
  adrRelevant : List CategorySummary

structure StructuredDiffOutput where
  metadata : OutputMetadata
  categories : CategorizedFiles
  summary : OutputSummary
  legacySummary : String

/-! ### Pattern tables (`src/patterns.ts`)

Each `RegExp` is translated to the equivalent executable predicate on the
path string. -/

/-- `\.[jt]sx?$` preceded by a literal `base`, e.g. `/\.service\.[jt]sx?$/`. -/
def jtsxSuffix (base : String) (s : String) : Bool :=
  endsW (base ++ ".js") s || endsW (base ++ ".ts") s ||
  endsW (base ++ ".jsx") s || endsW (base ++ ".tsx") s

/-- `\.[jt]sx?$` on a character list. -/
def extJtsx (l : List Char) : Bool :=
  hasSfx ".js".data l || hasSfx ".ts".data l ||
  hasSfx ".jsx".data l || hasSfx ".tsx".data l

def isUpperAZ (c : Char) : Bool := 'A' ≤ c && c ≤ 'Z'

/-- Whether `use[A-Z][^/]*\.[jt]sx?$` matches at the head of the list. -/
def useUpperAt : List Char → Bool
  | 'u' :: 's' :: 'e' :: c :: r2 =>
      isUpperAZ c && !(r2.contains '/') && extJtsx r2
  | _ => false

/-- `use[A-Z][^/]*\.[jt]sx?$` anywhere in the list (regex search). -/
def useUpperScan : List Char → Bool
  | [] => false
  | c :: rest => useUpperAt (c :: rest) || useUpperScan rest

def CATEGORY_PATTERNS : FileCategory → List (String → Bool)
  | .backend =>
    [ fun s => startsW "api/" s || startsW "server/" s || startsW "backend/" s,
      fun s => containsS "/api/" s,
      fun s => containsS "/routes/" s || containsS "/controllers/" s ||
               containsS "/handlers/" s || containsS "/endpoints/" s,
      fun s => containsS "/services/" s || containsS "/service/" s || containsS "/lib/" s,
      fun s => jtsxSuffix ".service" s,
      fun s => jtsxSuffix ".controller" s,
      fun s => jtsxSuffix ".handler" s,
      fun s => containsS "/models/" s || containsS "/entities/" s || containsS "/schemas/" s ||
               containsS "/db/" s || containsS "/database/" s || containsS "/prisma/" s ||
               containsS "/drizzle/" s,
      fun s => jtsxSuffix ".model" s,
      fun s => jtsxSuffix ".entity" s,
      fun s => containsS "/migrations/" s || containsS "/seeds/" s,
      fun s => containsS "/middleware/" s,
      fun s => jtsxSuffix ".middleware" s ]
  | .frontend =>
    [ fun s => startsW "components/" s || startsW "src/components/" s,
      fun s => startsW "pages/" s || startsW "src/pages/" s,
      fun s => startsW "app/" s || startsW "src/app/" s,
      fun s => jtsxSuffix ".component" s,
      fun s => jtsxSuffix ".page" s,
      fun s => containsS "/hooks/" s || containsS "/contexts/" s || containsS "/providers/" s,
      fun s => jtsxSuffix ".hook" s,
      fun s => useUpperScan s.data,
      fun s => startsW "style/" s || startsW "styles/" s ||
               startsW "src/style/" s || startsW "src/styles/" s,
      fun s => endsW ".module.css" s || endsW ".module.scss" s || endsW ".module.sass" s,
      fun s => jtsxSuffix ".styled" s,
      fun s => containsS "/store/" s || containsS "/stores/" s || containsS "/redux/" s ||
               containsS "/zustand/" s || containsS "/recoil/" s,
      fun s => jtsxSuffix ".slice" s,
      fun s => jtsxSuffix ".store" s ]
  | .infra =>
    [ fun s => startsW "Dockerfile" s,
      fun s => startsW "docker-compose" s,
      fun s => endsW ".docker" s,
      fun s => startsW ".docker/" s,
      fun s => startsW ".github/workflows/" s || startsW ".github/actions/" s,
      fun s => startsW ".gitlab-ci" s,
      fun s => startsW ".circleci/" s,
      fun s => startsW "Jenkinsfile" s,
      fun s => s == ".travis.yml",
      fun s => startsW "azure-pipelines" s,
      fun s => startsW "bitbucket-pipelines" s,
      fun s => startsW "terraform/" s || startsW "tf/" s,
      fun s => endsW ".tf" s,
      fun s => startsW "pulumi/" s,
      fun s => startsW "cdk/" s,
      fun s => startsW "k8s/" s || startsW "kubernetes/" s ||
               startsW "helm/" s || startsW "charts/" s,
      fun s => startsW "serverless." s,
      fun s => s == "vercel.json",
      fun s => s == "netlify.toml" ]
  | .config =>
    [ fun s => s == "package.json",
      fun s => startsW "tsconfig" s,
      fun s => startsW "jsconfig" s,
      fun s => jtsxSuffix ".config" s || jtsxSuffix ".rc" s,
      fun s => startsW "vite.config" s,
      fun s => startsW "webpack.config" s,
      fun s => startsW "rollup.config" s,
      fun s => startsW "esbuild" s,
      fun s => startsW "babel.config" s,
      fun s => startsW ".babelrc" s,
      fun s => startsW ".eslint" s,
      fun s => startsW ".prettier" s,
      fun s => startsW ".stylelint" s,
      fun s => s == ".editorconfig",
      fun s => startsW ".env" s,
      fun s => s == ".nvmrc",
      fun s => s == ".node-version",
      fun s => s == ".tool-versions" ]
  | .test =>
    [ fun s => jtsxSuffix ".test" s,
      fun s => jtsxSuffix ".spec" s,
      fun s => jtsxSuffix ".e2e" s,
      fun s => startsW "test/" s || startsW "tests/" s || startsW "__tests__/" s ||
               startsW "spec/" s || startsW "specs/" s,
      fun s => containsS "/test/" s || containsS "/tests/" s || containsS "/__tests__/" s ||
               containsS "/spec/" s || containsS "/specs/" s,
      fun s => startsW "cypress/" s,
      fun s => startsW "playwright/" s,
      fun s => jtsxSuffix ".stories" s,
      fun s => startsW ".storybook/" s,
      fun s => containsS "jest.config" s,
      fun s => containsS "vitest.config" s ]
  | .docs =>
    [ fun s => endsW ".md" s,
      fun s => endsW ".mdx" s,
      fun s => endsW ".txt" s,
      fun s => startsW "doc/" s || startsW "docs/" s,
      fun s => startsWCI "README" s,
      fun s => startsWCI "CHANGELOG" s,
      fun s => startsWCI "CONTRIBUTING" s,
      fun s => startsWCI "LICENSE" s,
      fun s => startsWCI "SECURITY" s,
      fun s => startsWCI "CODE_OF_CONDUCT" s,
      fun s => endsW ".rst" s ]
  | .other => []

def SKIP_PATTERNS : List (String → Bool) :=
  [ fun s => endsW "package-lock.json" s,
    fun s => endsW "yarn.lock" s,
    fun s => endsW "pnpm-lock.yaml" s,
    fun s => endsW "Gemfile.lock" s,
    fun s => endsW "Cargo.lock" s,
    fun s => endsW "poetry.lock" s,
    fun s => endsW "composer.lock" s,
    fun s => endsW "go.sum" s,
    fun s => endsW "Pipfile.lock" s,
    fun s => jtsxSuffix ".generated" s,
    fun s => jtsxSuffix ".g" s,
    fun s => jtsxSuffix ".gen" s,
    fun s => jtsxSuffix ".auto" s,
    fun s => containsS "/generated/" s,
    fun s => containsS "/__generated__/" s,
    fun s => jtsxSuffix ".min" s,
    fun s => endsW ".min.css" s,
    fun s => jtsxSuffix ".bundle" s,
    fun s => jtsxSuffix ".chunk" s,
    fun s => endsW ".map" s,
    fun s => startsW "dist/" s,
    fun s => startsW "build/" s,
    fun s => startsW "out/" s,
    fun s => startsW ".next/" s,
    fun s => startsW ".nuxt/" s,
    fun s => containsS "/swagger/" s,
    fun s => containsS "/openapi/" s,
    fun s => jtsxSuffix ".swagger" s,
    fun s => jtsxSuffix ".openapi" s,
    fun s => containsS "/graphql/generated/" s,
    fun s => containsS "__generated__/graphql" s,
    fun s => containsS ".idea/" s,
    fun s => endsW ".vscode/settings.json" s,
    fun s => endsW ".vscode/extensions.json" s,
    fun s => endsWCI ".png" s || endsWCI ".jpg" s || endsWCI ".jpeg" s || endsWCI ".gif" s ||
             endsWCI ".ico" s || endsWCI ".svg" s || endsWCI ".webp" s,
    fun s => endsWCI ".woff" s || endsWCI ".woff2" s || endsWCI ".ttf" s || endsWCI ".eot" s,
    fun s => endsWCI ".mp3" s || endsWCI ".mp4" s || endsWCI ".wav" s ||
             endsWCI ".avi" s || endsWCI ".mov" s,
    fun s => endsWCI ".pdf" s || endsWCI ".zip" s || endsWCI ".tar" s || endsWCI ".gz" s,
    fun s => startsW "vendor/" s,
    fun s => startsW "node_modules/" s ]

/-- `/^[+-]\s*;?\s*$/` resp. `/^[+-]\s*,?\s*$/` after the leading sign:
`\s*` then an optional `mid` then `\s*` to the end. -/
def wsOptMidWs (mid : Char) (l : List Char) : Bool :=
  match dropWsL l with
  | [] => true
  | c :: rest => c == mid && rest.all wsChar

def fmtSignOpt (mid : Char) (l : List Char) : Bool :=
  match l with
  | [] => false
  | c :: rest => (c == '+' || c == '-') && wsOptMidWs mid rest

def FORMATTING_PATTERNS : List (String → Bool) :=
  [ fun s => s.data.all wsChar,
    fun s => fmtSignOpt ';' s.data,
    fun s => fmtSignOpt ',' s.data ]

/-- `FORMATTING_PATTERNS.some((p) => p.test(s))`. -/
def fmtTest (s : String) : Bool := FORMATTING_PATTERNS.any fun p => p s

def CATEGORY_PRIORITY : FileCategory → Nat
  | .backend => 100
  | .frontend => 80
  | .config => 60
  | .infra => 50
  | .other => 40
  | .docs => 30
  | .test => 20

def CATEGORY_TOKEN_BUDGET : FileCategory → Nat
  | .backend => 1000
  | .frontend => 800
  | .config => 300
  | .infra => 300
  | .docs => 200
  | .test => 200
  | .other => 200

def CATEGORY_LINE_LIMITS : FileCategory → Nat
  | .backend => 30
  | .frontend => 25
  | .infra => 20
  | .config => 15
  | .other => 15
  | .docs => 10
  | .test => 10

def CATEGORY_LABELS : FileCategory → String
  | .backend => "バックエンド"
  | .frontend => "フロントエンド"
  | .infra => "インフラ"
  | .config => "設定"
  | .test => "テスト"
  | .docs => "ドキュメント"
  | .other => "その他"

def ADR_TRIGGER_PATTERNS : List (String → Bool) :=
  [ fun s => containsCI "config" s,
    fun s => containsCI "schema" s,
    fun s => containsCI "migration" s,
    fun s => endsW ".prisma" s,
    fun s => containsCI "docker" s,
    fun s => containsCI "infrastructure" s,
    fun s => endsW ".yml" s || endsW ".yaml" s,
    fun s => endsW ".tf" s,
    fun s => containsCI "auth" s,
    fun s => containsCI "security" s ]

/-! ### The diff processor (`src/diff-processor.ts`) -/

/-- `DiffProcessor.filterSkippedFiles`'s per-file test. -/
def shouldSkip (filename : String) : Bool := SKIP_PATTERNS.any fun p => p filename

def filterSkippedFiles (files : List FileDiff) : List FileDiff :=
  files.filter fun file => !(shouldSkip file.filename)

/-- The `categoryOrder` local of `DiffProcessor.detectCategory`. -/
def categoryOrder : List FileCategory := [.backend, .frontend, .infra, .test, .config, .docs]

def matchesCategory (c : FileCategory) (filename : String) : Bool :=
  (CATEGORY_PATTERNS c).any fun p => p filename

def isJtsxPath (s : String) : Bool := extJtsx s.data

def detectCategory (filename : String) : FileCategory :=
  match categoryOrder.find? (fun c => matchesCategory c filename) with
  | some c => c
  | none =>
    if isJtsxPath filename then
      if containsS "component" filename || containsS "page" filename then .frontend
      else .backend
    else .other

/-- Decimal value of a digit run, as read by `parseInt(m, 10)`. -/
def digitsVal (ds : List Char) : Nat := ds.foldl (fun n c => n * 10 + (c.toNat - 48)) 0

/-- `\s+` : at least one whitespace character, consumed greedily. -/
def munchWs1 : List Char → Option (List Char)
  | [] => none
  | c :: rest => if wsChar c then some (dropWsL rest) else none

/-- `\d+` : at least one digit, consumed greedily, returning its value. -/
def munchDigits (l : List Char) : Option (Nat × List Char) :=
  let ds := l.takeWhile Char.isDigit
  if ds.isEmpty then none
  else some (digitsVal ds, l.dropWhile Char.isDigit)

/-- `line.match(/^@@\s+-\d+(?:,\d+)?\s+\+(\d+)/)`, returning the capture's
value.  Greedy consumption is equivalent to the regex here because none of
`-`, `+`, `,` or a digit is whitespace. -/
def hunkPlusStart (line : List Char) : Option Nat :=
  match line with
  | '@' :: '@' :: rest => do
      let r1 ← munchWs1 rest
      match r1 with
      | '-' :: r2 => do
          let (_, r3) ← munchDigits r2
          let r4 ← match r3 with
                   | ',' :: r3b => do
                       let (_, r3c) ← munchDigits r3b
                       munchWs1 r3c
                   | _ => munchWs1 r3
          match r4 with
          | '+' :: r5 => do
              let (n, _) ← munchDigits r5
              some n
          | _ => none
      | _ => none
  | _ => none

def bracketPunct (c : Char) : Bool :=
  c == '{' || c == '}' || c == '[' || c == ']' || c == '(' || c == ')' || c == ',' || c == ';'

/-- `DiffProcessor.isMeaningfulLine` on the (already trimmed) content. -/
def isMeaningfulLineL (l : List Char) : Bool :=
  if l.isEmpty then false
  else if hasPfx "//".data l then false
  else if hasPfx "#".data l && !(hasPfx "#!".data l) then false
  else if hasPfx "/*".data l || hasPfx "*".data l then false
  else if l.all bracketPunct then false
  else if l.all wsChar then false
  else true

def isMeaningfulLine (content : String) : Bool := isMeaningfulLineL content.data

/-- `DiffProcessor.truncateContent`. -/
def truncateContent (content : String) (maxLength : Nat) : String :=
  if maxLength < content.data.length then (⟨content.data.take maxLength⟩ : String) ++ "..."
  else content

/-- The scan loop of `DiffProcessor.extractMeaningfulChanges`: the list of
remaining lines, the running `currentContext` and the running `lineNumber`. -/
def extractLoopL : List (List Char) → List Char → Nat → List MeaningfulChange
  | [], _, _ => []
  | line :: rest, ctx, ln =>
    match hunkPlusStart line with
    | some n => extractLoopL rest ctx n
    | none =>
      if !(hasPfx "+".data line) && !(hasPfx "-".data line) then
        let ctx2 := if hasPfx " ".data line then trimL (line.drop 1) else ctx
        extractLoopL rest ctx2 (ln + 1)
      else if hasPfx "+++".data line || hasPfx "---".data line then
        extractLoopL rest ctx ln
      else
        let content := trimL (line.drop 1)
        let isAdd := hasPfx "+".data line
        let ln2 := if isAdd then ln + 1 else ln
        if !(isMeaningfulLineL content) then extractLoopL rest ctx ln2
        else if fmtTest ⟨content⟩ then extractLoopL rest ctx ln2
        else
          { type := if isAdd then ChangeDir.added else ChangeDir.removed
            content := truncateContent ⟨content⟩ 100
            context := if ctx.isEmpty then none else some ⟨ctx⟩
            lineNumber := if isAdd then some ln else none } :: extractLoopL rest ctx ln2

/-- `DiffProcessor.extractMeaningfulChanges`; `!file.patch` is true both for
a missing patch and for the empty string. -/
def extractMeaningfulChanges (file : FileDiff) : List MeaningfulChange :=
  match file.patch with
  | none => []
  | some p => if p = "" then [] else extractLoopL (splitNl p.data) [] 0

/-- `DiffProcessor.detectFormattingOnly`. -/
def detectFormattingOnly (file : FileDiff) (changes : List MeaningfulChange) : Bool :=
  if changes.length == 0 && decide (0 < file.additions + file.deletions) then true
  else if decide (0 < changes.length) && changes.all (fun c => fmtTest c.content) then true
  else false

/-- `DiffProcessor.detectChangeType`. -/
def detectChangeType (file : FileDiff) (changes : List MeaningfulChange) : ChangeType :=
  let content := lowerStr (joinSep "\n" (changes.map fun c => c.content))
  if endsW ".md" file.filename || endsW ".txt" file.filename || endsW ".rst" file.filename then
    .docs
  else if file.status = FileStatus.added then .feature
  else if containsS "package.json" file.filename || containsS "requirements.txt" file.filename then
    .dependency
  else if containsS "config" file.filename || containsS ".env" file.filename ||
          endsW ".yml" file.filename || endsW ".yaml" file.filename then .config
  else if containsS "fix" content || containsS "bug" content ||
          containsS "error" content || containsS "patch" content then .fix
  else if (changes.filter fun c => decide (c.type = ChangeDir.added)).length
            = (changes.filter fun c => decide (c.type = ChangeDir.removed)).length then .refactor
  else .feature

/-- `DiffProcessor.calculateImportance`. -/
def calculateImportance (file : FileDiff) (category : FileCategory)
    (changeType : ChangeType) : ImportanceLevel :=
  if category = FileCategory.backend ∧ 50 < file.additions then .high
  else if changeType = ChangeType.feature ∧ file.status = FileStatus.added then .high
  else if containsS "schema" file.filename || containsS "migration" file.filename then .high
  else if containsS "auth" file.filename || containsS "security" file.filename then .high
  else if category = FileCategory.test then .low
  else if category = FileCategory.docs ∧ changeType ≠ ChangeType.feature then .low
  else if changeType = ChangeType.style then .low
  else .medium

/-- `DiffProcessor.detectGenerated`. -/
def detectGenerated (file : FileDiff) : Bool :=
  if jtsxSuffix ".generated" file.filename || jtsxSuffix ".g" file.filename ||
     jtsxSuffix ".gen" file.filename || jtsxSuffix ".auto" file.filename then true
  else
    match file.patch with
    | none => false
    | some p =>
      if p = "" then false
      else
        let firstLines := joinSep "\n" (((splitNl p.data).take 10).map fun l => (⟨l⟩ : String))
        containsS "auto-generated" firstLines || containsS "DO NOT EDIT" firstLines ||
        containsS "@generated" firstLines

/-- `DiffProcessor.enhanceFileDiff`. -/
def enhanceFileDiff (file : FileDiff) : EnhancedFileDiff :=
  let category := detectCategory file.filename
  let meaningfulChanges := extractMeaningfulChanges file
  { toFileDiff := file
    category := category
    changeType := detectChangeType file meaningfulChanges
    importance := calculateImportance file category (detectChangeType file meaningfulChanges)
    isGenerated := detectGenerated file
    isFormattingOnly := detectFormattingOnly file meaningfulChanges
    meaningfulChanges := meaningfulChanges
    truncated := false
    originalLineCount := meaningfulChanges.length }

def importanceOrder : ImportanceLevel → Nat
  | .high => 0
  | .medium => 1
  | .low => 2

/-- Stable insertion step for the importance sort: an element is placed after
all existing elements of smaller-or-equal ordinal, which is exactly what the
(stable) JS `Array.prototype.sort` with comparator
`importanceOrder[a] - importanceOrder[b]` produces. -/
def insertByImportance (f : EnhancedFileDiff) :
    List EnhancedFileDiff → List EnhancedFileDiff
  | [] => [f]
  | g :: gs =>
    if importanceOrder f.importance < importanceOrder g.importance then f :: g :: gs
    else g :: insertByImportance f gs

def sortByImportance : List EnhancedFileDiff → List EnhancedFileDiff
  | [] => []
  | f :: fs => insertByImportance f (sortByImportance fs)

/-- `DiffProcessor.categorizeFiles`: the push loop appends each file to the
bucket of its category in input order, i.e. each bucket is the in-order
filter of the input by that category, then sorted by importance. -/
def categorizeFiles (files : List EnhancedFileDiff) : CategorizedFiles :=
  { backend := sortByImportance (files.filter fun f => decide (f.category = .backend))
    frontend := sortByImportance (files.filter fun f => decide (f.category = .frontend))
    infra := sortByImportance (files.filter fun f => decide (f.category = .infra))
    config := sortByImportance (files.filter fun f => decide (f.category = .config))
    test := sortByImportance (files.filter fun f => decide (f.category = .test))
    docs := sortByImportance (files.filter fun f => decide (f.category = .docs))
    other := sortByImportance (files.filter fun f => decide (f.category = .other)) }

def chgChars (c : MeaningfulChange) : Nat :=
  c.content.length + (match c.context with | some ctx => ctx.length | none => 0)

/-- `DiffProcessor.estimateTokens`: `Math.ceil(totalChars / 4)` with
`CHARS_PER_TOKEN = 4`; on naturals the ceiling is `(totalChars + 3) / 4`. -/
def estimateTokens (changes : List MeaningfulChange) : Nat :=
  ((changes.map chgChars).sum + 3) / 4

/-- One iteration of the `map` body of `DiffProcessor.applyTruncation`:
takes the category budget, the category line limit, the running
`categoryTokens` and the file, and returns the updated file and counter.
The float average `fileTokens / truncatedChanges.length` is modelled as an
exact rational. -/
def truncFileStep (budget lineLimit tokens : Nat) (file : EnhancedFileDiff) :
    EnhancedFileDiff × Nat :=
  if budget ≤ tokens then
    ({ file with meaningfulChanges := [], truncated := true }, tokens)
  else
    let truncatedChanges := file.meaningfulChanges.take lineLimit
    let fileTokens := estimateTokens truncatedChanges
    if budget < tokens + fileTokens then
      let remainingBudget := budget - tokens
      let avgTokensPerChange : ℚ :=
        if 0 < truncatedChanges.length then
          (fileTokens : ℚ) / (truncatedChanges.length : ℚ)
        else 1
      let changesWeCanInclude := max 1 (Int.toNat ⌊(remainingBudget : ℚ) / avgTokensPerChange⌋)
      ({ file with
          meaningfulChanges := truncatedChanges.take changesWeCanInclude
          truncated := decide (changesWeCanInclude < file.meaningfulChanges.length) },
        tokens + estimateTokens (truncatedChanges.take changesWeCanInclude))
    else
      ({ file with
          meaningfulChanges := truncatedChanges
          truncated := decide (truncatedChanges.length < file.meaningfulChanges.length) },
        tokens + fileTokens)

def truncateCategory (budget lineLimit : Nat) :
    Nat → List EnhancedFileDiff → List EnhancedFileDiff
  | _, [] => []
  | tokens, file :: rest =>
    let s := truncFileStep budget lineLimit tokens file
    s.1 :: truncateCategory budget lineLimit s.2 rest

def truncBucket (c : FileCategory) (files : List EnhancedFileDiff) : List EnhancedFileDiff :=
  truncateCategory (CATEGORY_TOKEN_BUDGET c) (CATEGORY_LINE_LIMITS c) 0 files

/-- `DiffProcessor.applyTruncation`.  The source iterates the categories in
descending `CATEGORY_PRIORITY` order, but `categoryTokens` is re-initialised
to 0 for each category, so the buckets are processed independently. -/
def applyTruncation (categories : CategorizedFiles) : CategorizedFiles :=
  { backend := truncBucket .backend categories.backend
    frontend := truncBucket .frontend categories.frontend
    infra := truncBucket .infra categories.infra
    config := truncBucket .config categories.config
    test := truncBucket .test categories.test
    docs := truncBucket .docs categories.docs
    other := truncBucket .other categories.other }

def catBucket (cats : CategorizedFiles) : FileCategory → List EnhancedFileDiff
  | .backend => cats.backend
  | .frontend => cats.frontend
  | .infra => cats.infra
  | .config => cats.config
  | .test => cats.test
  | .docs => cats.docs
  | .other => cats.other

/-- Key order of the `CategorizedFiles` object literal, which is the
`Object.entries` / `Object.values` iteration order used by the view
builders and the stats. -/
def entriesOrder : List FileCategory :=
  [.backend, .frontend, .infra, .config, .test, .docs, .other]

/-- `DiffProcessor.extractHighlights`. -/
def extractHighlights (files : List EnhancedFileDiff) : List String :=
  (((files.map fun f => f.meaningfulChanges.take 2).flatten.filter
      fun c => decide (c.type = ChangeDir.added)).take 5).map fun c => c.content

/-- `DiffProcessor.detectBreakingChanges`. -/
def detectBreakingChanges (files : List EnhancedFileDiff) : Bool :=
  let content := joinSep "\n" ((files.map fun f => f.meaningfulChanges).flatten.map
    fun c => lowerStr c.content)
  containsS "breaking" content || containsS "deprecated" content ||
  containsS "removed" content || containsS "migration required" content

def dedupAux {α : Type} [DecidableEq α] : List α → List α → List α
  | [], _ => []
  | a :: rest, seen =>
    if a ∈ seen then dedupAux rest seen else a :: dedupAux rest (a :: seen)

/-- `[...new Set(xs)]`: distinct elements in first-occurrence order. -/
def distinctList {α : Type} [DecidableEq α] (l : List α) : List α := dedupAux l []

/-- The `CategorySummary` object built by each of the view builders. -/
def mkCategorySummary (cat : FileCategory) (files : List EnhancedFileDiff) : CategorySummary :=
  { category := cat
    files := files.map fun f => f.filename
    highlights := extractHighlights files
    hasBreakingChanges := detectBreakingChanges files
    changeTypes := distinctList (files.map fun f => f.changeType) }

/-- Stable insertion step for the final sort of `buildPRRelevantSummary`
(comparator `CATEGORY_PRIORITY[b] - CATEGORY_PRIORITY[a]`, i.e. descending
priority, stable). -/
def prioInsert (s : CategorySummary) : List CategorySummary → List CategorySummary
  | [] => [s]
  | t :: ts =>
    if CATEGORY_PRIORITY t.category < CATEGORY_PRIORITY s.category then s :: t :: ts
    else t :: prioInsert s ts

def prioSort : List CategorySummary → List CategorySummary
  | [] => []
  | s :: ss => prioInsert s (prioSort ss)

/-- `DiffProcessor.buildPRRelevantSummary`. -/
def buildPRRelevantSummary (categories : CategorizedFiles) : List CategorySummary :=
  prioSort (entriesOrder.filterMap fun cat =>
    let typedFiles := catBucket categories cat
    if typedFiles.length = 0 then none
    else
      let highPriorityFiles := typedFiles.filter fun f =>
        decide (f.importance ≠ ImportanceLevel.low)
      if highPriorityFiles.length = 0 then none
      else some (mkCategorySummary cat highPriorityFiles))

/-- `DiffProcessor.filterSummaries`. -/
def filterSummaries (categories : CategorizedFiles) (relevantCategories : List FileCategory)
    (relevantTypes : List ChangeType) : List CategorySummary :=
  relevantCategories.filterMap fun cat =>
    let files := (catBucket categories cat).filter fun f =>
      relevantTypes.contains f.changeType
    if files.length = 0 then none else some (mkCategorySummary cat files)

/-- `DiffProcessor.buildReadmeRelevantSummary`. -/
def buildReadmeRelevantSummary (categories : CategorizedFiles) : List CategorySummary :=
  filterSummaries categories [.backend, .frontend, .config] [.feature, .fix]

/-- `DiffProcessor.buildADRRelevantSummary`. -/
def buildADRRelevantSummary (categories : CategorizedFiles) : List CategorySummary :=
  ([FileCategory.infra, .config, .backend]).filterMap fun cat =>
    let files := (catBucket categories cat).filter fun f =>
      decide (f.importance = ImportanceLevel.high) ||
      ADR_TRIGGER_PATTERNS.any (fun p => p f.filename) ||
      decide (100 < f.additions)
    if files.length = 0 then none else some (mkCategorySummary cat files)

/-- One rendered change line of the legacy summary. -/
def renderChange (c : MeaningfulChange) : String :=
  "  " ++ (if c.type = ChangeDir.added then "+" else "-") ++ " " ++ c.content

/-- The `changes` string built for a file by `buildLegacySummary`. -/
def renderedChanges (file : EnhancedFileDiff) : String :=
  joinSep "\n" ((file.meaningfulChanges.take 5).map renderChange)

/-- The `... (他 N 行)` marker pushed for a truncated file;
`originalLineCount - 5` is JS number subtraction, hence `Int`. -/
def markerString (file : EnhancedFileDiff) : String :=
  "  ... (他 " ++ toString ((file.originalLineCount : Int) - 5) ++ " 行)"

/-- The parts pushed for one file by the inner loop of `buildLegacySummary`. -/
def legacyFileParts (file : EnhancedFileDiff) : List String :=
  ("- " ++ file.filename) ::
    ((if renderedChanges file = "" then [] else [renderedChanges file]) ++
     (if file.truncated then [markerString file] else []))

/-- The parts pushed for one category by `buildLegacySummary`. -/
def legacyCatParts (categories : CategorizedFiles) (cat : FileCategory) : List String :=
  if (catBucket categories cat).length = 0 then []
  else ("### " ++ CATEGORY_LABELS cat) :: ((catBucket categories cat).map legacyFileParts).flatten

/-- `DiffProcessor.buildLegacySummary`. -/
def buildLegacySummary (categories : CategorizedFiles) : String :=
  joinSep "\n\n" ((entriesOrder.map (legacyCatParts categories)).flatten)

/-- `Object.values(categories).flat()`. -/
def allFilesOf (categories : CategorizedFiles) : List EnhancedFileDiff :=
  (entriesOrder.map (catBucket categories)).flatten

/-- `DiffProcessor.sumField`. -/
def sumField (categories : CategorizedFiles) (field : EnhancedFileDiff → Nat) : Nat :=
  ((allFilesOf categories).map field).sum

/-- `DiffProcessor.calculateStats`. -/
def calculateStats (categories : CategorizedFiles) (originalCount : Nat) : ProcessingStats :=
  let allFiles := allFilesOf categories
  { totalFiles := originalCount
    processedFiles := allFiles.length
    skippedFiles := originalCount - allFiles.length
    truncatedFiles := (allFiles.filter fun f => f.truncated).length
    estimatedTokens := estimateTokens (allFiles.map fun f => f.meaningfulChanges).flatten
    categoryCounts := fun cat => (catBucket categories cat).length }

/-- `DiffProcessor.buildOutput`. -/
def buildOutput (categories : CategorizedFiles) (prTitle : String)
    (originalFileCount : Nat) : StructuredDiffOutput :=
  let stats := calculateStats categories originalFileCount
  { metadata :=
      { prTitle := prTitle
        totalAdditions := sumField categories fun f => f.additions
        totalDeletions := sumField categories fun f => f.deletions
        fileCount := stats.processedFiles
        stats := stats }
    categories := categories
    summary :=
      { prRelevant := buildPRRelevantSummary categories
        readmeRelevant := buildReadmeRelevantSummary categories
        adrRelevant := buildADRRelevantSummary categories }
    legacySummary := buildLegacySummary categories }

/-- `DiffProcessor.process`, the pipeline entry point. -/
def process (files : List FileDiff) (prTitle : String) : StructuredDiffOutput :=
  let filteredFiles := filterSkippedFiles files
  let enhancedFiles := filteredFiles.map enhanceFileDiff
  let meaningfulFiles := enhancedFiles.filter fun f => !f.isFormattingOnly
  let categorized := categorizeFiles meaningfulFiles
  let truncatedCategories := applyTruncation categorized
  buildOutput truncatedCategories prTitle files.length

/-! ### Derived definitions used to state the claims -/

/-- The union (in bucket order) of all category buckets. -/
def allBucketsList (cats : CategorizedFiles) : List EnhancedFileDiff :=
  cats.backend ++ cats.frontend ++ cats.infra ++ cats.config ++
  cats.test ++ cats.docs ++ cats.other

/-- The input files that survive the skip filter and the formatting-only
filter (the set the partition claim compares the buckets against). -/
def keptInput (files : List FileDiff) : List FileDiff :=
  files.filter fun f => !shouldSkip f.filename && !(enhanceFileDiff f).isFormattingOnly

/-- The simpler formatting-only predicate the refinement claim states:
no extracted meaningful change and a nonzero added+removed line count. -/
def formattingOnlySpec (file : FileDiff) : Bool :=
  (extractMeaningfulChanges file).isEmpty && decide (0 < file.additions + file.deletions)

/-- The doc-extension test of `detectChangeType` (`/\.(md|txt|rst)$/`). -/
def docPathB (f : FileDiff) : Bool :=
  endsW ".md" f.filename || endsW ".txt" f.filename || endsW ".rst" f.filename

/-- The dependency-manifest test of `detectChangeType`. -/
def depManifestB (f : FileDiff) : Bool :=
  containsS "package.json" f.filename || containsS "requirements.txt" f.filename

/-- The config-path test of `detectChangeType` (`/config|\.env|\.ya?ml$/`). -/
def cfgPathB (f : FileDiff) : Bool :=
  containsS "config" f.filename || containsS ".env" f.filename ||
  endsW ".yml" f.filename || endsW ".yaml" f.filename

/-- The concatenated lower-cased change content used by `detectChangeType`. -/
def joinedContent (changes : List MeaningfulChange) : String :=
  lowerStr (joinSep "\n" (changes.map fun c => c.content))

/-- The fix-keyword test of `detectChangeType`. -/
def fixKwB (changes : List MeaningfulChange) : Bool :=
  containsS "fix" (joinedContent changes) || containsS "bug" (joinedContent changes) ||
  containsS "error" (joinedContent changes) || containsS "patch" (joinedContent changes)

/-- Sum of the estimated token costs of the files of a bucket. -/
def sumTokens (files : List EnhancedFileDiff) : Nat :=
  (files.map fun f => estimateTokens f.meaningfulChanges).sum

/-- Worst-case estimated cost of a single file's line-limit-capped change
list over a bucket. -/
def maxCappedCost (lim : Nat) (files : List EnhancedFileDiff) : Nat :=
  (files.map fun f => estimateTokens (f.meaningfulChanges.take lim)).foldr max 0

/-- The three formatting patterns as one boolean test on a char list. -/
def fmtTestL (l : List Char) : Bool :=
  l.all wsChar || (fmtSignOpt ';' l || fmtSignOpt ',' l)

/-! ### Concrete example records used by counterexamples and witnesses -/

def mkAddedChange (s : String) : MeaningfulChange :=
  { type := ChangeDir.added, content := s, context := none, lineNumber := none }

/-- An 800-character content line (cost 200 estimated tokens). -/
def longContentA : String := ⟨List.replicate 800 'a'⟩

/-- A docs file whose capped change list costs 202 tokens: contents of
sizes 800, 4 and 4 characters. -/
def exFileC2 : EnhancedFileDiff :=
  { filename := "docs/guide.md", status := FileStatus.modified, additions := 3, deletions := 0
    patch := none
    category := FileCategory.docs, changeType := ChangeType.docs
    importance := ImportanceLevel.low
    isGenerated := false, isFormattingOnly := false
    meaningfulChanges := [mkAddedChange longContentA, mkAddedChange "abcd", mkAddedChange "efgh"]
    truncated := false, originalLineCount := 3 }

def exCatsC2 : CategorizedFiles :=
  { backend := [], frontend := [], infra := [], config := [], test := []
    docs := [exFileC2], other := [] }

/-- A docs file whose change list costs exactly the docs budget (8 changes
of 100 characters each, 200 estimated tokens). -/
def exFileC3a : EnhancedFileDiff :=
  { filename := "docs/big.md", status := FileStatus.modified, additions := 8, deletions := 0
    patch := none
    category := FileCategory.docs, changeType := ChangeType.docs
    importance := ImportanceLevel.low
    isGenerated := false, isFormattingOnly := false
    meaningfulChanges := List.replicate 8 (mkAddedChange ⟨List.replicate 100 'b'⟩)
    truncated := false, originalLineCount := 8 }

/-- A surviving file with no meaningful changes at all (a rename with zero
added and removed lines survives both filters). -/
def exFileC3b : EnhancedFileDiff :=
  { filename := "docs/renamed.md", status := FileStatus.renamed, additions := 0, deletions := 0
    patch := none
    category := FileCategory.docs, changeType := ChangeType.docs
    importance := ImportanceLevel.low
    isGenerated := false, isFormattingOnly := false
    meaningfulChanges := [], truncated := false, originalLineCount := 0 }

def exCatsC3 : CategorizedFiles :=
  { backend := [], frontend := [], infra := [], config := [], test := []
    docs := [exFileC3a, exFileC3b], other := [] }

/-- A file with 7 meaningful changes that was not cut by the allocator. -/
def exFileC7 : EnhancedFileDiff :=
  { filename := "notes.md", status := FileStatus.modified, additions := 7, deletions := 0
    patch := none
    category := FileCategory.docs, changeType := ChangeType.docs
    importance := ImportanceLevel.low
    isGenerated := false, isFormattingOnly := false
    meaningfulChanges :=
      [mkAddedChange "l1", mkAddedChange "l2", mkAddedChange "l3", mkAddedChange "l4",
       mkAddedChange "l5", mkAddedChange "l6", mkAddedChange "l7"]
    truncated := false, originalLineCount := 7 }

/-- A truncated file, for the witness of the amended legacy-marker claim. -/
def exFileC7t : EnhancedFileDiff :=
  { filename := "big.md", status := FileStatus.modified, additions := 9, deletions := 0
    patch := none
    category := FileCategory.docs, changeType := ChangeType.docs
    importance := ImportanceLevel.low
    isGenerated := false, isFormattingOnly := false
    meaningfulChanges := [mkAddedChange "k1", mkAddedChange "k2"]
    truncated := true, originalLineCount := 9 }

/-! ### Helper lemmas -/

theorem fmtTest_eq_fmtTestL (s : String) : fmtTest s = fmtTestL s.data := by
  simp [fmtTest, FORMATTING_PATTERNS, fmtTestL]

theorem all_wsChar_dots (x : List Char) :
    ((x ++ ['.', '.', '.']).all wsChar) = false := by
  have h : (['.', '.', '.'] : List Char).all wsChar = false := by decide
  simp [List.all_append, h]

theorem wsOptMidWs_dots (mid : Char) (x : List Char) :
    wsOptMidWs mid (x ++ ['.', '.', '.']) = false := by
  unfold wsOptMidWs dropWsL
  rw [List.dropWhile_append]
  cases h : List.dropWhile wsChar x with
  | nil =>
    have hdots : List.dropWhile wsChar ['.', '.', '.'] = ['.', '.', '.'] := by decide
    have hall : (['.', '.'] : List Char).all wsChar = false := by decide
    simp [hdots, hall]
  | cons c z =>
    have hall : (['.', '.', '.'] : List Char).all wsChar = false := by decide
    simp [List.all_append, hall]

theorem fmtSignOpt_dots (mid : Char) (x : List Char) :
    fmtSignOpt mid (x ++ ['.', '.', '.']) = false := by
  cases x with
  | nil =>
    have h : (('.' == '+') || ('.' == '-')) = false := by decide
    simp [fmtSignOpt, h]
  | cons c z =>
    simp [fmtSignOpt, wsOptMidWs_dots]

theorem fmtTestL_truncateContent (l : List Char) (h : fmtTestL l = false) :
    fmtTestL (truncateContent ⟨l⟩ 100).data = false := by
  unfold truncateContent
  by_cases hlen : 100 < (⟨l⟩ : String).data.length
  · rw [if_pos hlen]
    show fmtTestL (((⟨List.take 100 l⟩ : String) ++ "...").data) = false
    rw [String.data_append]
    show fmtTestL (List.take 100 l ++ ['.', '.', '.']) = false
    unfold fmtTestL
    rw [all_wsChar_dots, fmtSignOpt_dots, fmtSignOpt_dots]
    rfl
  · rw [if_neg hlen]
    exact h

theorem extractLoopL_fmt (lines : List (List Char)) :
    ∀ (ctx : List Char) (ln : Nat) (c : MeaningfulChange),
      c ∈ extractLoopL lines ctx ln → fmtTestL c.content.data = false := by
  induction lines with
  | nil => intro ctx ln c hc; simp [extractLoopL] at hc
  | cons line rest ih =>
    intro ctx ln c hc
    simp only [extractLoopL] at hc
    cases hh : hunkPlusStart line with
    | some n => rw [hh] at hc; exact ih _ _ c hc
    | none =>
      rw [hh] at hc
      by_cases h1 : (!(hasPfx "+".data line) && !(hasPfx "-".data line)) = true
      · rw [if_pos h1] at hc; exact ih _ _ c hc
      · rw [if_neg h1] at hc
        by_cases h2 : (hasPfx "+++".data line || hasPfx "---".data line) = true
        · rw [if_pos h2] at hc; exact ih _ _ c hc
        · rw [if_neg h2] at hc
          by_cases h3 : (!(isMeaningfulLineL (trimL (List.drop 1 line)))) = true
          · rw [if_pos h3] at hc; exact ih _ _ c hc
          · rw [if_neg h3] at hc
            by_cases h4 : fmtTest (⟨trimL (List.drop 1 line)⟩ : String) = true
            · rw [if_pos h4] at hc; exact ih _ _ c hc
            · rw [if_neg h4] at hc
              rcases List.mem_cons.mp hc with hhead | htail
              · subst hhead
                apply fmtTestL_truncateContent
                have h5 : fmtTest (⟨trimL (List.drop 1 line)⟩ : String) = false :=
                  Bool.not_eq_true _ ▸ Bool.of_not_eq_true h4
                rw [fmtTest_eq_fmtTestL] at h5
                exact h5
              · exact ih _ _ c htail

theorem floor_avg_eq_natDiv (rem ft len : ℕ) (_hft : 0 < ft) (_hlen : 0 < len) :
    Int.toNat ⌊(rem : ℚ) / ((ft : ℚ) / (len : ℚ))⌋ = rem * len / ft := by
  rw [div_div_eq_mul_div, Int.floor_toNat]
  have h : ((rem : ℚ) * (len : ℚ)) = (((rem * len : ℕ) : ℚ)) := by push_cast; ring
  rw [h]
  exact Nat.floor_div_eq_div _ _

theorem estimateTokens_nil : estimateTokens [] = 0 := rfl

theorem sumTokens_cons (f : EnhancedFileDiff) (l : List EnhancedFileDiff) :
    sumTokens (f :: l) = estimateTokens f.meaningfulChanges + sumTokens l := by
  simp [sumTokens]

theorem estimateTokens_take_le (l : List MeaningfulChange) (n : ℕ) :
    estimateTokens (l.take n) ≤ estimateTokens l := by
  unfold estimateTokens
  apply Nat.div_le_div_right
  apply Nat.add_le_add_right
  rw [List.map_take]
  calc ((l.map chgChars).take n).sum
      ≤ ((l.map chgChars).take n).sum + ((l.map chgChars).drop n).sum := Nat.le_add_right _ _
    _ = (l.map chgChars).sum := by rw [← List.sum_append, List.take_append_drop]

theorem le_foldr_max (l : List ℕ) (x : ℕ) (hx : x ∈ l) : x ≤ l.foldr max 0 := by
  induction l with
  | nil => simp at hx
  | cons a t ih =>
    rcases List.mem_cons.mp hx with rfl | hmem
    · exact le_max_left _ _
    · exact le_trans (ih hmem) (le_max_right _ _)

/-- The full characterisation of the overflow branch of `truncFileStep`,
with the rational floor rewritten as natural division. -/
theorem truncFileStep_overflow_spec (b lim t : ℕ) (f : EnhancedFileDiff)
    (h1 : t < b)
    (h2 : b < t + estimateTokens (f.meaningfulChanges.take lim)) :
    (truncFileStep b lim t f).1.meaningfulChanges
      = (f.meaningfulChanges.take lim).take
          (max 1 ((b - t) * (f.meaningfulChanges.take lim).length
                    / estimateTokens (f.meaningfulChanges.take lim)))
  ∧ (truncFileStep b lim t f).1.truncated
      = decide (max 1 ((b - t) * (f.meaningfulChanges.take lim).length
                    / estimateTokens (f.meaningfulChanges.take lim))
                  < f.meaningfulChanges.length)
  ∧ (truncFileStep b lim t f).2
      = t + estimateTokens
          ((f.meaningfulChanges.take lim).take
            (max 1 ((b - t) * (f.meaningfulChanges.take lim).length
                      / estimateTokens (f.meaningfulChanges.take lim)))) := by
  have hft : 0 < estimateTokens (f.meaningfulChanges.take lim) := by omega
  have hlen : 0 < (f.meaningfulChanges.take lim).length := by
    rcases Nat.eq_zero_or_pos (f.meaningfulChanges.take lim).length with h | h
    · exfalso
      rw [List.length_eq_zero.mp h] at hft
      simp [estimateTokens_nil] at hft
    · exact h
  simp only [truncFileStep]
  rw [if_neg (by omega : ¬ b ≤ t), if_pos h2, if_pos hlen,
    floor_avg_eq_natDiv _ _ _ hft hlen]
  exact ⟨rfl, rfl, rfl⟩

/-- Per-file length and flag facts about `truncFileStep`, for any running
counter value. -/
theorem truncFileStep_len_flag (b lim t : ℕ) (f : EnhancedFileDiff) :
    ((truncFileStep b lim t f).1.meaningfulChanges.length ≤ f.meaningfulChanges.length)
  ∧ ((truncFileStep b lim t f).1.meaningfulChanges.length < f.meaningfulChanges.length →
      (truncFileStep b lim t f).1.truncated = true)
  ∧ ((truncFileStep b lim t f).1.truncated = true →
      (truncFileStep b lim t f).1.meaningfulChanges.length < f.meaningfulChanges.length
      ∨ f.meaningfulChanges.length = 0) := by
  by_cases h1 : b ≤ t
  · unfold truncFileStep
    rw [if_pos h1]
    refine ⟨Nat.zero_le _, fun _ => rfl, fun _ => ?_⟩
    show 0 < f.meaningfulChanges.length ∨ f.meaningfulChanges.length = 0
    omega
  · by_cases h2 : b < t + estimateTokens (f.meaningfulChanges.take lim)
    · have hspec := truncFileStep_overflow_spec b lim t f (by omega) h2
      have hft : 0 < estimateTokens (f.meaningfulChanges.take lim) := by omega
      have hlen : 0 < (f.meaningfulChanges.take lim).length := by
        rcases Nat.eq_zero_or_pos (f.meaningfulChanges.take lim).length with h | h
        · exfalso
          rw [List.length_eq_zero.mp h] at hft
          simp [estimateTokens_nil] at hft
        · exact h
      set k := max 1 ((b - t) * (f.meaningfulChanges.take lim).length
                  / estimateTokens (f.meaningfulChanges.take lim)) with hk
      have hkle : k ≤ (f.meaningfulChanges.take lim).length := by
        have hrem : b - t < estimateTokens (f.meaningfulChanges.take lim) := by omega
        have hdiv : (b - t) * (f.meaningfulChanges.take lim).length
            / estimateTokens (f.meaningfulChanges.take lim)
            < (f.meaningfulChanges.take lim).length := by
          rw [Nat.div_lt_iff_lt_mul hft]
          calc (b - t) * (f.meaningfulChanges.take lim).length
              < estimateTokens (f.meaningfulChanges.take lim)
                  * (f.meaningfulChanges.take lim).length := by
                exact Nat.mul_lt_mul_of_lt_of_le hrem (le_refl _) hlen
            _ = (f.meaningfulChanges.take lim).length
                  * estimateTokens (f.meaningfulChanges.take lim) := Nat.mul_comm _ _
        omega
      have hlenres : (truncFileStep b lim t f).1.meaningfulChanges.length = k := by
        rw [hspec.1, List.length_take]
        omega
      have htakelen : (f.meaningfulChanges.take lim).length ≤ f.meaningfulChanges.length := by
        rw [List.length_take]; omega
      refine ⟨by omega, fun hlt => ?_, fun hflag => ?_⟩
      · rw [hspec.2.1]
        exact decide_eq_true (by omega)
      · rw [hspec.2.1] at hflag
        have := of_decide_eq_true hflag
        omega
    · unfold truncFileStep
      rw [if_neg h1, if_neg h2]
      have htakelen : (f.meaningfulChanges.take lim).length ≤ f.meaningfulChanges.length := by
        rw [List.length_take]; omega
      refine ⟨htakelen, fun hlt => decide_eq_true hlt, fun hflag => Or.inl (of_decide_eq_true hflag)⟩

/-- Token accounting for `truncFileStep`: the updated counter is the old
counter plus the cost of the retained changes, and that cost is bounded by
the cost of the line-limit-capped list whenever the budget was not already
exhausted. -/
theorem truncFileStep_tokens (b lim t : ℕ) (f : EnhancedFileDiff) :
    (truncFileStep b lim t f).2
      = t + estimateTokens (truncFileStep b lim t f).1.meaningfulChanges
  ∧ (b ≤ t → (truncFileStep b lim t f).2 = t)
  ∧ (¬ b ≤ t →
      estimateTokens (truncFileStep b lim t f).1.meaningfulChanges
        ≤ estimateTokens (f.meaningfulChanges.take lim)) := by
  by_cases h1 : b ≤ t
  · unfold truncFileStep
    rw [if_pos h1]
    refine ⟨by simp [estimateTokens_nil], fun _ => rfl, fun h => absurd h1 h⟩
  · by_cases h2 : b < t + estimateTokens (f.meaningfulChanges.take lim)
    · have hspec := truncFileStep_overflow_spec b lim t f (by omega) h2
      refine ⟨?_, fun h => absurd h h1, fun _ => ?_⟩
      · rw [hspec.2.2, hspec.1]
      · rw [hspec.1]
        exact estimateTokens_take_le _ _
    · unfold truncFileStep
      rw [if_neg h1, if_neg h2]
      exact ⟨rfl, fun h => absurd h h1, fun _ => le_refl _⟩

/-- The bucket fold keeps the running counter equal to the accumulated cost
and never lets it pass `budget + M`, where `M` bounds every file's capped
cost. -/
theorem truncateCategory_sum_le (b lim M : ℕ) :
    ∀ (fs : List EnhancedFileDiff) (t : ℕ),
      (∀ f ∈ fs, estimateTokens (f.meaningfulChanges.take lim) ≤ M) →
      t ≤ b + M →
      t + sumTokens (truncateCategory b lim t fs) ≤ b + M := by
  intro fs
  induction fs with
  | nil =>
    intro t _ ht
    simpa [sumTokens, truncateCategory] using ht
  | cons f rest ih =>
    intro t hM ht
    have hstep := truncFileStep_tokens b lim t f
    have hnext : (truncFileStep b lim t f).2 ≤ b + M := by
      by_cases hb : b ≤ t
      · rw [hstep.2.1 hb]; exact ht
      · have hc := hstep.2.2 hb
        have hM0 := hM f (List.mem_cons_self _ _)
        rw [hstep.1]
        omega
    have hrest := ih (truncFileStep b lim t f).2
      (fun g hg => hM g (List.mem_cons_of_mem _ hg)) hnext
    simp only [truncateCategory, sumTokens_cons]
    have h1 := hstep.1
    omega

theorem truncFileStep_fst_filename (b lim t : ℕ) (f : EnhancedFileDiff) :
    (truncFileStep b lim t f).1.filename = f.filename := by
  simp only [truncFileStep]
  split
  · rfl
  · split <;> rfl

theorem truncFileStep_fst_category (b lim t : ℕ) (f : EnhancedFileDiff) :
    (truncFileStep b lim t f).1.category = f.category := by
  simp only [truncFileStep]
  split
  · rfl
  · split <;> rfl

theorem truncateCategory_map_filename (b lim : ℕ) :
    ∀ (t : ℕ) (fs : List EnhancedFileDiff),
      (truncateCategory b lim t fs).map (fun f => f.filename) = fs.map fun f => f.filename := by
  intro t fs
  induction fs generalizing t with
  | nil => rfl
  | cons f rest ih =>
    simp only [truncateCategory, List.map_cons]
    rw [truncFileStep_fst_filename, ih]

theorem truncateCategory_map_category (b lim : ℕ) :
    ∀ (t : ℕ) (fs : List EnhancedFileDiff),
      (truncateCategory b lim t fs).map (fun f => f.category) = fs.map fun f => f.category := by
  intro t fs
  induction fs generalizing t with
  | nil => rfl
  | cons f rest ih =>
    simp only [truncateCategory, List.map_cons]
    rw [truncFileStep_fst_category, ih]

theorem insertByImportance_perm (f : EnhancedFileDiff) (l : List EnhancedFileDiff) :
    List.Perm (insertByImportance f l) (f :: l) := by
  induction l with
  | nil => exact List.Perm.refl _
  | cons g gs ih =>
    unfold insertByImportance
    split
    · exact List.Perm.refl _
    · exact (ih.cons g).trans (List.Perm.swap f g gs)

theorem sortByImportance_perm (l : List EnhancedFileDiff) :
    List.Perm (sortByImportance l) l := by
  induction l with
  | nil => exact List.Perm.refl _
  | cons f fs ih =>
    exact (insertByImportance_perm f (sortByImportance fs)).trans (ih.cons f)

theorem count_filter_eq_zero {α : Type} [DecidableEq α] (p : α → Bool) (l : List α) (a : α)
    (h : p a = false) : List.count a (l.filter p) = 0 := by
  rw [List.count_eq_zero]
  intro hmem
  rw [List.mem_filter] at hmem
  rw [hmem.2] at h
  cases h

theorem count_filter_ite {α : Type} [DecidableEq α] (p : α → Bool) (l : List α) (a : α) :
    List.count a (l.filter p) = if p a = true then List.count a l else 0 := by
  cases hb : p a with
  | true => rw [if_pos rfl]; exact List.count_filter (by rw [hb])
  | false => rw [if_neg (by simp [hb])]; exact count_filter_eq_zero p l a hb

/-- Splitting a list of enhanced files into the seven category filters and
concatenating them is a permutation of the list: every file has exactly one
category. -/
theorem filter_partition_perm (l : List EnhancedFileDiff) :
    List.Perm
      ((l.filter fun f => decide (f.category = FileCategory.backend)) ++
       (l.filter fun f => decide (f.category = FileCategory.frontend)) ++
       (l.filter fun f => decide (f.category = FileCategory.infra)) ++
       (l.filter fun f => decide (f.category = FileCategory.config)) ++
       (l.filter fun f => decide (f.category = FileCategory.test)) ++
       (l.filter fun f => decide (f.category = FileCategory.docs)) ++
       (l.filter fun f => decide (f.category = FileCategory.other)))
      l := by
  rw [List.perm_iff_count]
  intro a
  simp only [List.count_append, count_filter_ite]
  cases hc : a.category <;> simp [hc]

theorem map_filename_allBuckets_applyTrunc (cats : CategorizedFiles) :
    (allBucketsList (applyTruncation cats)).map (fun f => f.filename)
      = (allBucketsList cats).map fun f => f.filename := by
  simp only [allBucketsList, applyTruncation, truncBucket, List.map_append]
  rw [truncateCategory_map_filename, truncateCategory_map_filename,
    truncateCategory_map_filename, truncateCategory_map_filename,
    truncateCategory_map_filename, truncateCategory_map_filename,
    truncateCategory_map_filename]

theorem map_filename_allBuckets_categorize (l : List EnhancedFileDiff) :
    List.Perm ((allBucketsList (categorizeFiles l)).map fun f => f.filename)
      (l.map fun f => f.filename) := by
  have hs : ∀ (m : List EnhancedFileDiff),
      List.Perm ((sortByImportance m).map fun f => f.filename) (m.map fun f => f.filename) :=
    fun m => (sortByImportance_perm m).map _
  have hpart := (filter_partition_perm l).map (fun f => f.filename)
  rw [List.map_append, List.map_append, List.map_append, List.map_append,
    List.map_append, List.map_append] at hpart
  simp only [allBucketsList, categorizeFiles, List.map_append]
  exact ((((((hs _).append (hs _)).append (hs _)).append (hs _)).append
    (hs _)).append (hs _)).append (hs _) |>.trans hpart

theorem enhanceFileDiff_filename (f : FileDiff) :
    (enhanceFileDiff f).filename = f.filename := rfl

theorem surviving_map_filename (files : List FileDiff) :
    (((filterSkippedFiles files).map enhanceFileDiff).filter
        (fun f => !f.isFormattingOnly)).map (fun f => f.filename)
      = (keptInput files).map fun f => f.filename := by
  unfold filterSkippedFiles keptInput
  rw [List.filter_map, List.map_map, List.filter_filter]
  have hcong : List.filter
      (fun a => ((fun f => !f.isFormattingOnly) ∘ enhanceFileDiff) a && !shouldSkip a.filename)
      files
      = List.filter
          (fun f => !shouldSkip f.filename && !(enhanceFileDiff f).isFormattingOnly) files := by
    apply List.filter_congr
    intro a _
    show (!(enhanceFileDiff a).isFormattingOnly && !shouldSkip a.filename)
        = (!shouldSkip a.filename && !(enhanceFileDiff a).isFormattingOnly)
    exact Bool.and_comm _ _
  rw [hcong]
  rfl

theorem truncBucket_all_category (c : FileCategory) (fs : List EnhancedFileDiff)
    (h : ∀ f ∈ fs, f.category = c) :
    ∀ f ∈ truncBucket c fs, f.category = c := by
  intro x hx
  have hmap := truncateCategory_map_category (CATEGORY_TOKEN_BUDGET c)
    (CATEGORY_LINE_LIMITS c) 0 fs
  have hx2 : x.category ∈ (truncateCategory (CATEGORY_TOKEN_BUDGET c)
      (CATEGORY_LINE_LIMITS c) 0 fs).map (fun f => f.category) :=
    List.mem_map_of_mem _ hx
  rw [hmap] at hx2
  obtain ⟨g, hg, hgc⟩ := List.mem_map.mp hx2
  rw [← hgc]
  exact h g hg

theorem joinSep_data_head (sep : String) (a : String) (rest : List String) :
    ∃ t, (joinSep sep (a :: rest)).data = a.data ++ t := by
  cases rest with
  | nil => exact ⟨[], (List.append_nil _).symm⟩
  | cons b bs =>
    refine ⟨sep.data ++ (joinSep sep (b :: bs)).data, ?_⟩
    show ((a ++ sep) ++ joinSep sep (b :: bs)).data = _
    rw [String.data_append, String.data_append, List.append_assoc]

theorem renderChange_data_head (c : MeaningfulChange) :
    ∃ s t, (s = '+' ∨ s = '-') ∧ (renderChange c).data = ' ' :: ' ' :: s :: t := by
  unfold renderChange
  by_cases h : c.type = ChangeDir.added
  · rw [if_pos h]
    exact ⟨'+', _, Or.inl rfl, rfl⟩
  · rw [if_neg h]
    exact ⟨'-', _, Or.inr rfl, rfl⟩

theorem markerString_head (file : EnhancedFileDiff) :
    ∃ t, (markerString file).data = ' ' :: ' ' :: '.' :: t := by
  unfold markerString
  exact ⟨_, rfl⟩

/-! ### Claims -/

/-- C1: the files in the category buckets of `process`'s output are exactly
the input files that match no skip pattern and are not formatting-only —
as a multiset of file names the union of the buckets is a permutation of
the surviving inputs (nothing duplicated or lost) — and every file sits in
the bucket keyed by its own category, so each file appears in exactly one
bucket. -/
theorem process_buckets_partition (files : List FileDiff) (prTitle : String) :
    List.Perm
      ((allBucketsList (process files prTitle).categories).map fun f => f.filename)
      ((keptInput files).map fun f => f.filename)
  ∧ ∀ c : FileCategory,
      ((catBucket (process files prTitle).categories c).all
          fun f => decide (f.category = c)) = true := by
  have hcats : (process files prTitle).categories
      = applyTruncation (categorizeFiles
          (((filterSkippedFiles files).map enhanceFileDiff).filter
            fun f => !f.isFormattingOnly)) := rfl
  constructor
  · rw [hcats, ← surviving_map_filename files, map_filename_allBuckets_applyTrunc]
    exact map_filename_allBuckets_categorize _
  · intro c
    rw [hcats, List.all_eq_true]
    intro f hf
    have hb : catBucket (applyTruncation (categorizeFiles
          (((filterSkippedFiles files).map enhanceFileDiff).filter
            fun g => !g.isFormattingOnly))) c
        = truncBucket c (catBucket (categorizeFiles
            (((filterSkippedFiles files).map enhanceFileDiff).filter
              fun g => !g.isFormattingOnly)) c) := by
      cases c <;> rfl
    rw [hb] at hf
    have hcatS : ∀ g ∈ catBucket (categorizeFiles
        (((filterSkippedFiles files).map enhanceFileDiff).filter
          fun g => !g.isFormattingOnly)) c, g.category = c := by
      cases c <;>
        (intro g hg
         have hg2 := (sortByImportance_perm _).mem_iff.mp hg
         exact of_decide_eq_true (List.mem_filter.mp hg2).2)
    exact decide_eq_true (truncBucket_all_category c _ hcatS f hf)

/-- C9: the pipeline is deterministic — two invocations of `process` on the
same file list and title produce identical `StructuredDiffOutput` values.
The embedded `process` is a pure function (the source performs no I/O and
reads no ambient state inside the pipeline), so the two runs coincide
definitionally. -/
theorem process_deterministic (files : List FileDiff) (prTitle : String) :
    process files prTitle = process files prTitle := rfl

/-- C10: the implemented formatting-only predicate agrees with the simpler
predicate "no extracted meaningful change and a positive added+removed
count": extraction already discards every line matching a formatting
pattern (and length-capping cannot create a formatting match), so the
second branch of `detectFormattingOnly` never fires on a non-empty
extracted change list. -/
theorem detectFormattingOnly_refines (file : FileDiff) :
    detectFormattingOnly file (extractMeaningfulChanges file) = formattingOnlySpec file := by
  have hall : ∀ d ∈ extractMeaningfulChanges file, fmtTestL d.content.data = false := by
    intro d hd
    unfold extractMeaningfulChanges at hd
    cases hp : file.patch with
    | none => rw [hp] at hd; simp at hd
    | some q =>
      rw [hp] at hd
      dsimp only at hd
      by_cases hq : q = ""
      · rw [if_pos hq] at hd; simp at hd
      · rw [if_neg hq] at hd
        exact extractLoopL_fmt _ _ _ d hd
  cases hx : extractMeaningfulChanges file with
  | nil =>
    unfold detectFormattingOnly formattingOnlySpec
    rw [hx]
    by_cases hs : 0 < file.additions + file.deletions
    · simp [hs]
    · simp [hs]
  | cons c cs =>
    have hc : fmtTest c.content = false := by
      rw [fmtTest_eq_fmtTestL]
      exact hall c (hx ▸ List.mem_cons_self c cs)
    unfold detectFormattingOnly formattingOnlySpec
    rw [hx]
    simp [hc]

/-- C8: a missing patch and an empty patch both yield the empty change
sequence, and a path matching no category pattern and lacking a
source-file extension is classified `other`; all functions involved are
total, so neither condition can raise an error. -/
theorem no_error_empty_patch_unknown_path (file : FileDiff) (p : String) :
    (file.patch = none → extractMeaningfulChanges file = [])
  ∧ (file.patch = some "" → extractMeaningfulChanges file = [])
  ∧ ((∀ c ∈ categoryOrder, matchesCategory c p = false) → isJtsxPath p = false →
      detectCategory p = FileCategory.other) := by
  refine ⟨fun h => ?_, fun h => ?_, fun hall hj => ?_⟩
  · unfold extractMeaningfulChanges; rw [h]
  · unfold extractMeaningfulChanges; rw [h]; simp
  · have h0 := hall .backend (by simp [categoryOrder])
    have h1 := hall .frontend (by simp [categoryOrder])
    have h2 := hall .infra (by simp [categoryOrder])
    have h3 := hall .test (by simp [categoryOrder])
    have h4 := hall .config (by simp [categoryOrder])
    have h5 := hall .docs (by simp [categoryOrder])
    unfold detectCategory categoryOrder
    simp [List.find?, h0, h1, h2, h3, h4, h5, hj]

/-- Witness for C8 at concrete inputs: a file with no patch yields no
changes, and an unmatched non-source path is classified `other`. -/
theorem no_error_empty_patch_unknown_path_witness :
    extractMeaningfulChanges
      { filename := "img.png", status := FileStatus.modified,
        additions := 0, deletions := 0, patch := none } = []
  ∧ detectCategory "strange.bin" = FileCategory.other := by
  constructor
  · exact (no_error_empty_patch_unknown_path
      { filename := "img.png", status := FileStatus.modified,
        additions := 0, deletions := 0, patch := none } "strange.bin").1 rfl
  · exact (no_error_empty_patch_unknown_path
      { filename := "img.png", status := FileStatus.modified,
        additions := 0, deletions := 0, patch := none } "strange.bin").2.2
      (by decide) (by decide)

/-- C5: classification tests the category pattern blocks in the fixed order
backend, frontend, infra, test, config, docs and returns the first category
whose pattern set matches; if none match, a path with a source-file
extension falls back to frontend when it contains a component/page marker
and to backend otherwise, and any other path is classified `other`.
Consequently two paths matching different blocks are each classified by
whichever matching block is earliest in this order. -/
theorem detectCategory_first_match (p : String) :
    (matchesCategory FileCategory.backend p = true → detectCategory p = FileCategory.backend)
  ∧ (matchesCategory FileCategory.backend p = false →
      matchesCategory FileCategory.frontend p = true →
      detectCategory p = FileCategory.frontend)
  ∧ (matchesCategory FileCategory.backend p = false →
      matchesCategory FileCategory.frontend p = false →
      matchesCategory FileCategory.infra p = true →
      detectCategory p = FileCategory.infra)
  ∧ (matchesCategory FileCategory.backend p = false →
      matchesCategory FileCategory.frontend p = false →
      matchesCategory FileCategory.infra p = false →
      matchesCategory FileCategory.test p = true →
      detectCategory p = FileCategory.test)
  ∧ (matchesCategory FileCategory.backend p = false →
      matchesCategory FileCategory.frontend p = false →
      matchesCategory FileCategory.infra p = false →
      matchesCategory FileCategory.test p = false →
      matchesCategory FileCategory.config p = true →
      detectCategory p = FileCategory.config)
  ∧ (matchesCategory FileCategory.backend p = false →
      matchesCategory FileCategory.frontend p = false →
      matchesCategory FileCategory.infra p = false →
      matchesCategory FileCategory.test p = false →
      matchesCategory FileCategory.config p = false →
      matchesCategory FileCategory.docs p = true →
      detectCategory p = FileCategory.docs)
  ∧ ((∀ c ∈ categoryOrder, matchesCategory c p = false) →
      (isJtsxPath p = true →
        detectCategory p =
          (if containsS "component" p || containsS "page" p then FileCategory.frontend
           else FileCategory.backend))
      ∧ (isJtsxPath p = false → detectCategory p = FileCategory.other)) := by
  refine ⟨fun m0 => ?_, fun n0 m1 => ?_, fun n0 n1 m2 => ?_, fun n0 n1 n2 m3 => ?_,
    fun n0 n1 n2 n3 m4 => ?_, fun n0 n1 n2 n3 n4 m5 => ?_, fun hall => ?_⟩
  · unfold detectCategory categoryOrder; simp [List.find?, m0]
  · unfold detectCategory categoryOrder; simp [List.find?, n0, m1]
  · unfold detectCategory categoryOrder; simp [List.find?, n0, n1, m2]
  · unfold detectCategory categoryOrder; simp [List.find?, n0, n1, n2, m3]
  · unfold detectCategory categoryOrder; simp [List.find?, n0, n1, n2, n3, m4]
  · unfold detectCategory categoryOrder; simp [List.find?, n0, n1, n2, n3, n4, m5]
  · have h0 := hall .backend (by simp [categoryOrder])
    have h1 := hall .frontend (by simp [categoryOrder])
    have h2 := hall .infra (by simp [categoryOrder])
    have h3 := hall .test (by simp [categoryOrder])
    have h4 := hall .config (by simp [categoryOrder])
    have h5 := hall .docs (by simp [categoryOrder])
    constructor
    · intro hj
      unfold detectCategory categoryOrder
      simp [List.find?, h0, h1, h2, h3, h4, h5, hj]
    · intro hj
      unfold detectCategory categoryOrder
      simp [List.find?, h0, h1, h2, h3, h4, h5, hj]

/-- Witness for C5: `components/button.test.tsx` matches both the frontend
block and the test block; frontend is earlier in the order, so it wins. -/
theorem detectCategory_first_match_witness :
    matchesCategory FileCategory.frontend "components/button.test.tsx" = true
  ∧ matchesCategory FileCategory.test "components/button.test.tsx" = true
  ∧ detectCategory "components/button.test.tsx" = FileCategory.frontend := by
  refine ⟨by decide, by decide, ?_⟩
  exact (detectCategory_first_match "components/button.test.tsx").2.1 (by decide) (by decide)

/-- C6: change-type detection applies its rules in the fixed order
doc-extension, status added, dependency manifest, config path, fix keyword,
equal added/removed counts, default feature; consequently a file with
status `added` and a non-doc, non-manifest, non-config path is classified
`feature` regardless of its change content. -/
theorem detectChangeType_rule_order (file : FileDiff) (changes : List MeaningfulChange) :
    (docPathB file = true → detectChangeType file changes = ChangeType.docs)
  ∧ (docPathB file = false → file.status = FileStatus.added →
      detectChangeType file changes = ChangeType.feature)
  ∧ (docPathB file = false → file.status ≠ FileStatus.added → depManifestB file = true →
      detectChangeType file changes = ChangeType.dependency)
  ∧ (docPathB file = false → file.status ≠ FileStatus.added → depManifestB file = false →
      cfgPathB file = true → detectChangeType file changes = ChangeType.config)
  ∧ (docPathB file = false → file.status ≠ FileStatus.added → depManifestB file = false →
      cfgPathB file = false → fixKwB changes = true →
      detectChangeType file changes = ChangeType.fix)
  ∧ (docPathB file = false → file.status ≠ FileStatus.added → depManifestB file = false →
      cfgPathB file = false → fixKwB changes = false →
      (changes.filter fun c => decide (c.type = ChangeDir.added)).length
          = (changes.filter fun c => decide (c.type = ChangeDir.removed)).length →
      detectChangeType file changes = ChangeType.refactor)
  ∧ (docPathB file = false → file.status ≠ FileStatus.added → depManifestB file = false →
      cfgPathB file = false → fixKwB changes = false →
      (changes.filter fun c => decide (c.type = ChangeDir.added)).length
          ≠ (changes.filter fun c => decide (c.type = ChangeDir.removed)).length →
      detectChangeType file changes = ChangeType.feature)
  ∧ (file.status = FileStatus.added → docPathB file = false → depManifestB file = false →
      cfgPathB file = false → detectChangeType file changes = ChangeType.feature) := by
  unfold docPathB depManifestB cfgPathB fixKwB joinedContent
  refine ⟨fun d0 => ?_, fun d0 st => ?_, fun d0 st dep => ?_, fun d0 st dep cfg => ?_,
    fun d0 st dep cfg fx => ?_, fun d0 st dep cfg fx hc => ?_,
    fun d0 st dep cfg fx hc => ?_, fun st d0 _ _ => ?_⟩
  · unfold detectChangeType; simp [d0]
  · unfold detectChangeType; simp [d0, st]
  · unfold detectChangeType; simp [d0, st, dep]
  · unfold detectChangeType; simp [d0, st, dep, cfg]
  · unfold detectChangeType; simp [d0, st, dep, cfg, fx]
  · unfold detectChangeType; simp [d0, st, dep, cfg, fx, hc]
  · unfold detectChangeType; simp [d0, st, dep, cfg, fx, hc]
  · unfold detectChangeType; simp [d0, st]

/-- C2 counterexample: for the docs bucket `[exFileC2]` (capped costs
800+4+4 characters = 202 tokens against the 200-token docs budget) the
allocator retains 2 changes, whose cumulative estimated cost is 201 and
exceeds the remaining budget of 200, although only 1 change (cost 200)
fits: the retained count is computed from the average cost per change, not
as the maximum whole number of changes whose cumulative cost fits. -/
theorem applyTruncation_not_max_fit :
    CATEGORY_TOKEN_BUDGET FileCategory.docs = 200
  ∧ ((applyTruncation exCatsC2).docs.getD 0 exFileC2).meaningfulChanges.length = 2
  ∧ estimateTokens ((applyTruncation exCatsC2).docs.getD 0 exFileC2).meaningfulChanges = 201
  ∧ estimateTokens (exFileC2.meaningfulChanges.take 1) = 200
  ∧ 200 < estimateTokens (exFileC2.meaningfulChanges.take 2) := by
  have hd : (applyTruncation exCatsC2).docs.getD 0 exFileC2
      = (truncFileStep 200 10 0 exFileC2).1 := rfl
  have hspec := truncFileStep_overflow_spec 200 10 0 exFileC2 (by decide) (by decide)
  refine ⟨rfl, ?_, ?_, by decide, by decide⟩
  · rw [hd, hspec.1]; decide
  · rw [hd, hspec.1]; decide

/-- C2 amended: in the overflow branch (running counter below the budget,
capped cost exceeding the remaining budget), the retained changes are the
first `max 1 ⌊remainingBudget / (cappedCost / cappedLength)⌋` changes of
the capped list — the maximum whole number of changes (at least 1) whose
cost *at the file's average per-change rate* fits the remaining budget —
and the truncated flag is set iff that count is below the file's change
count.  (`⌊remaining / (ft/len)⌋` is written as `remaining * len / ft`.) -/
theorem truncFileStep_overflow (b lim t : ℕ) (f : EnhancedFileDiff)
    (h1 : t < b)
    (h2 : b < t + estimateTokens (f.meaningfulChanges.take lim)) :
    (truncFileStep b lim t f).1.meaningfulChanges
      = (f.meaningfulChanges.take lim).take
          (max 1 ((b - t) * (f.meaningfulChanges.take lim).length
                    / estimateTokens (f.meaningfulChanges.take lim)))
  ∧ (truncFileStep b lim t f).1.truncated
      = decide (max 1 ((b - t) * (f.meaningfulChanges.take lim).length
                    / estimateTokens (f.meaningfulChanges.take lim))
                  < f.meaningfulChanges.length)
  ∧ (max 1 ((b - t) * (f.meaningfulChanges.take lim).length
        / estimateTokens (f.meaningfulChanges.take lim)) = 1
     ∨ max 1 ((b - t) * (f.meaningfulChanges.take lim).length
          / estimateTokens (f.meaningfulChanges.take lim))
         * estimateTokens (f.meaningfulChanges.take lim)
         ≤ (b - t) * (f.meaningfulChanges.take lim).length)
  ∧ (b - t) * (f.meaningfulChanges.take lim).length
      < (max 1 ((b - t) * (f.meaningfulChanges.take lim).length
            / estimateTokens (f.meaningfulChanges.take lim)) + 1)
          * estimateTokens (f.meaningfulChanges.take lim) := by
  have hspec := truncFileStep_overflow_spec b lim t f h1 h2
  have hft : 0 < estimateTokens (f.meaningfulChanges.take lim) := by omega
  refine ⟨hspec.1, hspec.2.1, ?_, ?_⟩
  · by_cases hk0 : (b - t) * (f.meaningfulChanges.take lim).length
        / estimateTokens (f.meaningfulChanges.take lim) = 0
    · left; rw [hk0]; decide
    · right
      have hk1 : 1 ≤ (b - t) * (f.meaningfulChanges.take lim).length
          / estimateTokens (f.meaningfulChanges.take lim) := Nat.pos_of_ne_zero hk0
      rw [max_eq_right hk1]
      exact Nat.div_mul_le_self _ _
  · by_cases hk0 : (b - t) * (f.meaningfulChanges.take lim).length
        / estimateTokens (f.meaningfulChanges.take lim) = 0
    · have hlt := (Nat.div_eq_zero_iff hft).mp hk0
      rw [hk0]
      calc (b - t) * (f.meaningfulChanges.take lim).length
          < estimateTokens (f.meaningfulChanges.take lim) := hlt
        _ ≤ (max 1 0 + 1) * estimateTokens (f.meaningfulChanges.take lim) := by
            have hmax : max 1 0 = 1 := by decide
            rw [hmax]; omega
    · have hk1 : 1 ≤ (b - t) * (f.meaningfulChanges.take lim).length
          / estimateTokens (f.meaningfulChanges.take lim) := Nat.pos_of_ne_zero hk0
      rw [max_eq_right hk1]
      have hdm := Nat.div_add_mod ((b - t) * (f.meaningfulChanges.take lim).length)
        (estimateTokens (f.meaningfulChanges.take lim))
      have hmod := Nat.mod_lt ((b - t) * (f.meaningfulChanges.take lim).length) hft
      calc (b - t) * (f.meaningfulChanges.take lim).length
          = estimateTokens (f.meaningfulChanges.take lim)
              * ((b - t) * (f.meaningfulChanges.take lim).length
                  / estimateTokens (f.meaningfulChanges.take lim))
            + (b - t) * (f.meaningfulChanges.take lim).length
                % estimateTokens (f.meaningfulChanges.take lim) := hdm.symm
        _ < estimateTokens (f.meaningfulChanges.take lim)
              * ((b - t) * (f.meaningfulChanges.take lim).length
                  / estimateTokens (f.meaningfulChanges.take lim))
            + estimateTokens (f.meaningfulChanges.take lim) := by omega
        _ = ((b - t) * (f.meaningfulChanges.take lim).length
              / estimateTokens (f.meaningfulChanges.take lim) + 1)
              * estimateTokens (f.meaningfulChanges.take lim) := by ring

/-- Witness for the amended C2 at the concrete overflow input `exFileC2`:
the branch hypotheses hold there and the retained list is the computed
2-change capped prefix. -/
theorem truncFileStep_overflow_witness :
    (truncFileStep 200 10 0 exFileC2).1.meaningfulChanges
      = (exFileC2.meaningfulChanges.take 10).take
          (max 1 ((200 - 0) * (exFileC2.meaningfulChanges.take 10).length
                    / estimateTokens (exFileC2.meaningfulChanges.take 10))) :=
  (truncFileStep_overflow 200 10 0 exFileC2 (by decide) (by decide)).1

/-- C3 counterexample: in the docs bucket `[exFileC3a, exFileC3b]` the
first file consumes the whole 200-token budget, so the second file — which
has zero meaningful changes — is flagged `truncated` although its
post-truncation count (0) equals its pre-truncation count (0): the flag is
not equivalent to "post-count strictly below original count". -/
theorem applyTruncation_flag_not_iff :
    ((applyTruncation exCatsC3).docs.getD 1 exFileC3b).truncated = true
  ∧ ((applyTruncation exCatsC3).docs.getD 1 exFileC3b).meaningfulChanges.length
      = (exCatsC3.docs.getD 1 exFileC3b).meaningfulChanges.length := by
  exact ⟨rfl, rfl⟩

/-- C3 amended: pairing each bucket's input files with the allocator's
output files, the post-truncation change count never exceeds the
pre-truncation count; a strict decrease forces `truncated = true`; and
`truncated = true` forces a strict decrease *unless* the file had no
meaningful changes at all (a zero-change file reached after budget
exhaustion is flagged without losing anything). -/
theorem applyTruncation_len_flag (cats : CategorizedFiles) (c : FileCategory) :
    List.Forall₂ (fun fIn fOut =>
        fOut.meaningfulChanges.length ≤ fIn.meaningfulChanges.length
      ∧ (fOut.meaningfulChanges.length < fIn.meaningfulChanges.length → fOut.truncated = true)
      ∧ (fOut.truncated = true →
          fOut.meaningfulChanges.length < fIn.meaningfulChanges.length
          ∨ fIn.meaningfulChanges.length = 0))
      (catBucket cats c) (catBucket (applyTruncation cats) c) := by
  have key : ∀ (b lim : ℕ) (fs : List EnhancedFileDiff) (t : ℕ),
      List.Forall₂ (fun fIn fOut =>
          fOut.meaningfulChanges.length ≤ fIn.meaningfulChanges.length
        ∧ (fOut.meaningfulChanges.length < fIn.meaningfulChanges.length → fOut.truncated = true)
        ∧ (fOut.truncated = true →
            fOut.meaningfulChanges.length < fIn.meaningfulChanges.length
            ∨ fIn.meaningfulChanges.length = 0))
        fs (truncateCategory b lim t fs) := by
    intro b lim fs
    induction fs with
    | nil => intro t; exact List.Forall₂.nil
    | cons f rest ih =>
      intro t
      exact List.Forall₂.cons (truncFileStep_len_flag b lim t f) (ih _)
  cases c <;> exact key _ _ _ 0

/-- Witness for the amended C3, applied to the concrete bucket of the
counterexample input. -/
theorem applyTruncation_len_flag_witness :
    List.Forall₂ (fun fIn fOut =>
        fOut.meaningfulChanges.length ≤ fIn.meaningfulChanges.length
      ∧ (fOut.meaningfulChanges.length < fIn.meaningfulChanges.length → fOut.truncated = true)
      ∧ (fOut.truncated = true →
          fOut.meaningfulChanges.length < fIn.meaningfulChanges.length
          ∨ fIn.meaningfulChanges.length = 0))
      (catBucket exCatsC3 FileCategory.docs)
      (catBucket (applyTruncation exCatsC3) FileCategory.docs) :=
  applyTruncation_len_flag exCatsC3 FileCategory.docs

/-- C4: for every category, the total estimated token cost of the retained
change lists never exceeds the category's configured budget by more than
the worst-case estimated cost of a single file's line-limit-capped change
list. -/
theorem applyTruncation_budget_bound (cats : CategorizedFiles) (c : FileCategory) :
    sumTokens (catBucket (applyTruncation cats) c)
      ≤ CATEGORY_TOKEN_BUDGET c
        + maxCappedCost (CATEGORY_LINE_LIMITS c) (catBucket cats c) := by
  have key : ∀ (b lim : ℕ) (fs : List EnhancedFileDiff),
      sumTokens (truncateCategory b lim 0 fs) ≤ b + maxCappedCost lim fs := by
    intro b lim fs
    have h := truncateCategory_sum_le b lim (maxCappedCost lim fs) fs 0
      (fun f hf => le_foldr_max _ _ (List.mem_map_of_mem _ hf)) (by omega)
    omega
  cases c <;> exact key _ _ _

/-- C7 counterexample: a file with 7 retained meaningful changes and
`truncated = false` renders only its first 5 changes and emits *no*
"…N more lines" marker, although 2 changes are unshown — so the marker is
not emitted iff more changes were available than the 5 shown. -/
theorem legacyFileParts_no_marker :
    exFileC7.meaningfulChanges.length = 7
  ∧ legacyFileParts exFileC7 =
      ["- notes.md", "  + l1\n  + l2\n  + l3\n  + l4\n  + l5"] := by
  exact ⟨rfl, rfl⟩

/-- C7 amended: in the legacy rendering, per file, the first
`min 5 |meaningfulChanges|` changes are rendered with `+`/`-` prefixes, and
the "… (他 N 行)" marker is emitted iff the file's `truncated` flag is set,
with `N = originalLineCount - 5` (not the number of unshown changes). -/
theorem legacyFileParts_marker_iff (file : EnhancedFileDiff) :
    (markerString file ∈ legacyFileParts file ↔ file.truncated = true)
  ∧ renderedChanges file = joinSep "\n" ((file.meaningfulChanges.take 5).map renderChange)
  ∧ markerString file
      = "  ... (他 " ++ toString ((file.originalLineCount : Int) - 5) ++ " 行)" := by
  refine ⟨⟨?_, ?_⟩, rfl, rfl⟩
  · intro hmem
    by_cases ht : file.truncated = true
    · exact ht
    · exfalso
      unfold legacyFileParts at hmem
      rw [if_neg ht, List.append_nil] at hmem
      rcases List.mem_cons.mp hmem with h1 | h2
      · obtain ⟨tm, htm⟩ := markerString_head file
        have hdata := congrArg String.data h1
        rw [htm] at hdata
        have hd : ("- " ++ file.filename).data = '-' :: (' ' :: file.filename.data) := rfl
        rw [hd] at hdata
        injection hdata with hchar _
        exact absurd hchar (by decide)
      · by_cases hr : renderedChanges file = ""
        · rw [if_pos hr] at h2
          simp at h2
        · rw [if_neg hr] at h2
          have heq := List.mem_singleton.mp h2
          cases hmc : file.meaningfulChanges.take 5 with
          | nil =>
            apply hr
            unfold renderedChanges
            rw [hmc]
            rfl
          | cons c cs =>
            obtain ⟨s, t0, hsor, hcdata⟩ := renderChange_data_head c
            have hrend : ∃ t, (renderedChanges file).data = ' ' :: ' ' :: s :: t := by
              unfold renderedChanges
              rw [hmc, List.map_cons]
              obtain ⟨t1, ht1⟩ := joinSep_data_head "\n" (renderChange c) (cs.map renderChange)
              rw [ht1, hcdata]
              exact ⟨t0 ++ t1, rfl⟩
            obtain ⟨tr, htr⟩ := hrend
            obtain ⟨tm, htm⟩ := markerString_head file
            have hdata := congrArg String.data heq
            rw [htm, htr] at hdata
            injection hdata with _ hdata2
            injection hdata2 with _ hdata3
            injection hdata3 with hchar _
            rcases hsor with rfl | rfl
            · exact absurd hchar (by decide)
            · exact absurd hchar (by decide)
  · intro ht
    unfold legacyFileParts
    rw [if_pos ht]
    simp

/-- Witness for the amended C7 at a concrete truncated file: the marker
part is present. -/
theorem legacyFileParts_marker_iff_witness :
    markerString exFileC7t ∈ legacyFileParts exFileC7t :=
  (legacyFileParts_marker_iff exFileC7t).1.mpr rfl

/-- Witness for C6: a newly added non-doc file whose content contains
"fix" is still classified `feature` (the status-added rule fires first). -/
theorem detectChangeType_rule_order_witness :
    detectChangeType
      { filename := "src/newfile.ts", status := FileStatus.added,
        additions := 10, deletions := 0, patch := none }
      [mkAddedChange "fix the bug"] = ChangeType.feature := by
  exact (detectChangeType_rule_order
      { filename := "src/newfile.ts", status := FileStatus.added,
        additions := 10, deletions := 0, patch := none }
      [mkAddedChange "fix the bug"]).2.2.2.2.2.2.2 rfl (by decide) (by decide) (by decide)

end DiffNote
